import Mathlib

set_option maxRecDepth 100000

/-!
Verification of the truncation/redaction engine in `src/utils/truncate.ts`.

JavaScript strings are modelled as Lean `String`s (one `Char` per JS
character; the claims under study never involve astral-plane code units, so
`String.length` is an adequate model of JS `.length`).  Machine numbers that
the code uses as budgets, counts and byte sizes are non-negative integers and
are modelled as `Nat`; JS `Math.max(0, a - b)` coincides with truncated `Nat`
subtraction, which the definitions below spell out as `max 0 (a - b)` to
mirror the source.  Dynamically typed JSON values are modelled as the tagged
variant type `Json`.
-/

/-- Result record of `truncateString` (`TruncateResult` in the source). -/
structure TruncateResult where
  value : String
  truncated : Bool
  originalLength : Nat
deriving Repr, DecidableEq

/-- Default budget from the source (`DEFAULT_MAX_STRING_LENGTH = 500`). -/
def DEFAULT_MAX_STRING_LENGTH : Nat := 500

/-- The truncation indicator string `"...[+" + remaining + " chars]"` built by
the template literal in `truncateString`. -/
def indicatorFor (remaining : Nat) : String :=
  "...[+" ++ toString remaining ++ " chars]"

/-- Embedding of `truncateString(str, maxLength)` from `src/utils/truncate.ts`
(lines 21-44): strings within budget are returned unchanged; longer strings
are cut to leave room for the indicator, which encodes
`remaining = length - maxLength`. -/
def truncateString (str : String) (maxLength : Nat) : TruncateResult :=
  if str.length ≤ maxLength then
    ⟨str, false, str.length⟩
  else
    let remaining := str.length - maxLength
    let indicatorLength := (indicatorFor remaining).length
    let truncateAt := max 0 (maxLength - indicatorLength)
    ⟨str.take truncateAt ++ indicatorFor remaining, true, str.length⟩

/-- The cut position `truncateAt = max(0, maxLength - indicatorLength)`
computed inside `truncateString` for an over-budget string. -/
def truncateCutAt (s : String) (maxLength : Nat) : Nat :=
  max 0 (maxLength - (indicatorFor (s.length - maxLength)).length)

/-- Number of characters of `s` that are genuinely removed by `truncateString`,
i.e. `originalLength` minus the number of characters of `s` kept in the
output prefix. -/
def removedCharCount (s : String) (maxLength : Nat) : Nat :=
  s.length - truncateCutAt s maxLength

/-- The integer that `truncateString` writes into the indicator (`remaining`
in the source): the amount by which the string exceeds the budget. -/
def remainingChars (s : String) (maxLength : Nat) : Nat :=
  s.length - maxLength

/-- A 120-character string used as a concrete probe. -/
def aString120 : String := String.mk (List.replicate 120 'a')

/-- JSON-shaped values, as produced by `JSON.parse`: the source's dynamically
typed traversal is modelled by this tagged variant type.  Numbers keep their
source lexeme; the claims under study never inspect a number's printed form,
only that number nodes pass through the engine unchanged. -/
inductive Json where
  | null
  | bool (b : Bool)
  | num (lexeme : String)
  | str (s : String)
  | arr (elems : List Json)
  | obj (fields : List (String × Json))
deriving Repr

mutual

/-- Embedding of `truncateJsonValues(obj, options)` from
`src/utils/truncate.ts` (lines 51-81): strings are truncated via
`truncateString` (keeping only `.value`), null/boolean/number scalars are
returned as-is, arrays recurse element-wise, objects recurse over the values
of each key-value pair, keys untouched. -/
def truncateJsonValues : Json → Nat → Json
  | Json.null, _ => Json.null
  | Json.bool b, _ => Json.bool b
  | Json.num n, _ => Json.num n
  | Json.str s, m => Json.str (truncateString s m).value
  | Json.arr xs, m => Json.arr (truncateJsonList xs m)
  | Json.obj fs, m => Json.obj (truncateJsonFields fs m)

/-- Element-wise traversal of `obj.map((item) => truncateJsonValues(item, options))`. -/
def truncateJsonList : List Json → Nat → List Json
  | [], _ => []
  | x :: xs, m => truncateJsonValues x m :: truncateJsonList xs m

/-- Traversal of `Object.entries`, rebuilding each key with its walked value. -/
def truncateJsonFields : List (String × Json) → Nat → List (String × Json)
  | [], _ => []
  | (k, v) :: fs, m => (k, truncateJsonValues v m) :: truncateJsonFields fs m

end

mutual

/-- The structural shape of a JSON value: string leaves are blanked, all
other constructors (including key names, sequence lengths/order, and the
values of non-string scalars) are kept.  Two values have equal `shapeOf`
exactly when they agree on everything except string-leaf contents. -/
def shapeOf : Json → Json
  | Json.null => Json.null
  | Json.bool b => Json.bool b
  | Json.num n => Json.num n
  | Json.str _ => Json.str ""
  | Json.arr xs => Json.arr (shapeOfList xs)
  | Json.obj fs => Json.obj (shapeOfFields fs)

/-- Element-wise `shapeOf`. -/
def shapeOfList : List Json → List Json
  | [] => []
  | x :: xs => shapeOf x :: shapeOfList xs

/-- Field-wise `shapeOf`, keeping keys. -/
def shapeOfFields : List (String × Json) → List (String × Json)
  | [] => []
  | (k, v) :: fs => (k, shapeOf v) :: shapeOfFields fs

end

mutual

/-- Whether every string leaf of a JSON value fits within the budget. -/
def allStringsWithin : Json → Nat → Bool
  | Json.null, _ => true
  | Json.bool _, _ => true
  | Json.num _, _ => true
  | Json.str s, m => decide (s.length ≤ m)
  | Json.arr xs, m => allStringsWithinList xs m
  | Json.obj fs, m => allStringsWithinFields fs m

/-- `allStringsWithin` over a list of elements. -/
def allStringsWithinList : List Json → Nat → Bool
  | [], _ => true
  | x :: xs, m => allStringsWithin x m && allStringsWithinList xs m

/-- `allStringsWithin` over the values of a field list. -/
def allStringsWithinFields : List (String × Json) → Nat → Bool
  | [], _ => true
  | (_, v) :: fs, m => allStringsWithin v m && allStringsWithinFields fs m

end

/-- Modelled from the spec: JS `Number.prototype.toFixed(1)` applied to the
exact rational `num / den`, where `den` is a power of two (1024 or 1024²), so
the JS double holds the quotient exactly for all realistic sizes.  ECMA
toFixed picks the integer `n` with `n / 10` closest to the value, preferring
the larger `n` on ties; for non-negative dyadic rationals that is
`⌊(num * 10 + den / 2) / den⌋`. -/
def toFixed1 (num den : Nat) : String :=
  let n := (num * 10 + den / 2) / den
  toString (n / 10) ++ "." ++ toString (n % 10)

/-- Embedding of `formatBinarySize(bytes)` from `src/utils/truncate.ts`
(lines 87-95): bytes below 1024 are printed raw, below 1024² as KB with one
decimal, otherwise as MB with one decimal. -/
def formatBinarySize (bytes : Nat) : String :=
  if bytes < 1024 then
    "[Binary data: " ++ toString bytes ++ " B]"
  else if bytes < 1024 * 1024 then
    "[Binary data: " ++ toFixed1 bytes 1024 ++ " KB]"
  else
    "[Binary data: " ++ toFixed1 bytes (1024 * 1024) ++ " MB]"

/-- The whitespace class of the JS regex `\s` used by
`str.replace(/\s/g, '')`, restricted to the code points the engine can
actually meet here (ASCII whitespace plus NBSP and BOM; the exotic Unicode
space separators behave identically and never occur in the claims). -/
def isJsRegexWs (c : Char) : Bool :=
  c = ' ' || c = '\t' || c = '\n' || c = '\r' || c = '\x0b' || c = '\x0c' ||
    c = Char.ofNat 0xa0 || c = Char.ofNat 0xfeff

/-- A character of the base64 main alphabet `[A-Za-z0-9+/]`. -/
def isBase64AlphabetChar (c : Char) : Bool :=
  c.isAlphanum || c = '+' || c = '/'

/-- Matching the anchored regex `^[A-Za-z0-9+/]+=*$`: since `=` is not in the
main class, a string matches exactly when its longest alphabet prefix is
nonempty and everything after it is `=`. -/
def matchesBase64Pattern (cs : List Char) : Bool :=
  0 < (cs.takeWhile isBase64AlphabetChar).length &&
    (cs.dropWhile isBase64AlphabetChar).all (fun c => c = '=')

/-- Embedding of `isBase64Binary(str)` from `src/utils/truncate.ts`
(lines 101-121): strings shorter than 100 characters are never binary; the
whitespace-stripped text must have length divisible by 4, must contain at
least one of `+ / =`, and its first 1000 characters must match the base64
pattern. -/
def isBase64Binary (str : String) : Bool :=
  if str.length < 100 then false
  else
    let cleaned := str.data.filter (fun c => !isJsRegexWs c)
    if cleaned.length % 4 ≠ 0 then false
    else if !cleaned.any (fun c => c = '+' || c = '/' || c = '=') then false
    else matchesBase64Pattern (cleaned.take 1000)

/-- JSON whitespace as accepted by `JSON.parse` (tab, LF, CR, space). -/
def isJsonWs (c : Char) : Bool :=
  c = ' ' || c = '\t' || c = '\n' || c = '\r'

/-- Skip leading JSON whitespace. -/
def skipJsonWs : List Char → List Char
  | [] => []
  | c :: cs => if isJsonWs c then skipJsonWs cs else c :: cs

/-- Value of a hexadecimal digit, if any. -/
def hexVal (c : Char) : Option Nat :=
  if c.isDigit then some (c.toNat - '0'.toNat)
  else if 'a' ≤ c ∧ c ≤ 'f' then some (c.toNat - 'a'.toNat + 10)
  else if 'A' ≤ c ∧ c ≤ 'F' then some (c.toNat - 'A'.toNat + 10)
  else none

/-- Modelled from the spec: the string-literal部 of `JSON.parse` (a JS
builtin, not repository code).  Reads the characters after an opening quote
up to the closing quote, decoding the JSON escapes; control characters are
rejected.  `fuel` bounds recursion and is always called with more fuel than
characters. -/
def parseStringRest : Nat → List Char → Option (List Char × List Char)
  | 0, _ => none
  | _ + 1, [] => none
  | fuel + 1, c :: cs =>
    if c = '"' then some ([], cs)
    else if c = '\\' then
      match cs with
      | [] => none
      | e :: cs' =>
        if e = '"' then (parseStringRest fuel cs').map (fun p => ('"' :: p.1, p.2))
        else if e = '\\' then (parseStringRest fuel cs').map (fun p => ('\\' :: p.1, p.2))
        else if e = '/' then (parseStringRest fuel cs').map (fun p => ('/' :: p.1, p.2))
        else if e = 'b' then (parseStringRest fuel cs').map (fun p => ('\x08' :: p.1, p.2))
        else if e = 'f' then (parseStringRest fuel cs').map (fun p => ('\x0c' :: p.1, p.2))
        else if e = 'n' then (parseStringRest fuel cs').map (fun p => ('\n' :: p.1, p.2))
        else if e = 'r' then (parseStringRest fuel cs').map (fun p => ('\r' :: p.1, p.2))
        else if e = 't' then (parseStringRest fuel cs').map (fun p => ('\t' :: p.1, p.2))
        else if e = 'u' then
          match cs' with
          | h1 :: h2 :: h3 :: h4 :: cs'' =>
            match hexVal h1, hexVal h2, hexVal h3, hexVal h4 with
            | some a, some b, some c2, some d =>
              (parseStringRest fuel cs'').map
                (fun p => (Char.ofNat (((a * 16 + b) * 16 + c2) * 16 + d) :: p.1, p.2))
            | _, _, _, _ => none
          | _ => none
        else none
    else if c.toNat < 0x20 then none
    else (parseStringRest fuel cs).map (fun p => (c :: p.1, p.2))

/-- Longest digit prefix. -/
def takeDigits (cs : List Char) : List Char := cs.takeWhile Char.isDigit

/-- Remainder after the digit prefix. -/
def dropDigits (cs : List Char) : List Char := cs.dropWhile Char.isDigit

/-- Integer part of a JSON number: a single `0`, or a nonzero digit followed
by digits (JSON forbids redundant leading zeros). -/
def parseIntPart : List Char → Option (List Char × List Char)
  | '0' :: t => some (['0'], t)
  | c :: t => if c.isDigit then some (c :: takeDigits t, dropDigits t) else none
  | [] => none

/-- Optional fraction part: `.` followed by at least one digit. -/
def parseFracPart (cs : List Char) : Option (List Char × List Char) :=
  match cs with
  | '.' :: t =>
    match takeDigits t with
    | [] => none
    | ds => some ('.' :: ds, dropDigits t)
  | _ => some ([], cs)

/-- Optional exponent part: `e`/`E`, optional sign, at least one digit. -/
def parseExpPart (cs : List Char) : Option (List Char × List Char) :=
  match cs with
  | c :: t =>
    if c = 'e' ∨ c = 'E' then
      match t with
      | s :: t' =>
        if s = '+' ∨ s = '-' then
          match takeDigits t' with
          | [] => none
          | ds => some (c :: s :: ds, dropDigits t')
        else
          match takeDigits t with
          | [] => none
          | ds => some (c :: ds, dropDigits t)
      | [] => none
    else some ([], cs)
  | [] => some ([], [])

/-- A JSON number token, returned as its lexeme. -/
def parseNumber (cs : List Char) : Option (String × List Char) :=
  let (signChars, cs1) :=
    match cs with
    | '-' :: t => (['-'], t)
    | _ => ([], cs)
  match parseIntPart cs1 with
  | none => none
  | some (intChars, cs2) =>
    match parseFracPart cs2 with
    | none => none
    | some (fracChars, cs3) =>
      match parseExpPart cs3 with
      | none => none
      | some (expChars, cs4) =>
        some (String.mk (signChars ++ intChars ++ fracChars ++ expChars), cs4)

mutual

/-- Modelled from the spec: the grammar of `JSON.parse` (a JS builtin, not
repository code), as recursive descent with fuel.  Returns the value and the
unread remainder. -/
def parseJsonValue : Nat → List Char → Option (Json × List Char)
  | 0, _ => none
  | fuel + 1, cs =>
    match skipJsonWs cs with
    | 'n' :: 'u' :: 'l' :: 'l' :: rest => some (Json.null, rest)
    | 't' :: 'r' :: 'u' :: 'e' :: rest => some (Json.bool true, rest)
    | 'f' :: 'a' :: 'l' :: 's' :: 'e' :: rest => some (Json.bool false, rest)
    | '"' :: rest =>
      match parseStringRest (rest.length + 1) rest with
      | some (content, rest') => some (Json.str (String.mk content), rest')
      | none => none
    | '[' :: rest =>
      match skipJsonWs rest with
      | ']' :: rest' => some (Json.arr [], rest')
      | cs' =>
        match parseJsonElems fuel cs' with
        | some (xs, rest') => some (Json.arr xs, rest')
        | none => none
    | '{' :: rest =>
      match skipJsonWs rest with
      | '}' :: rest' => some (Json.obj [], rest')
      | cs' =>
        match parseJsonFields fuel cs' with
        | some (fs, rest') => some (Json.obj fs, rest')
        | none => none
    | cs' =>
      match parseNumber cs' with
      | some (lexeme, rest) => some (Json.num lexeme, rest)
      | none => none

/-- One or more comma-separated array elements up to the closing bracket. -/
def parseJsonElems : Nat → List Char → Option (List Json × List Char)
  | 0, _ => none
  | fuel + 1, cs =>
    match parseJsonValue fuel cs with
    | none => none
    | some (v, rest) =>
      match skipJsonWs rest with
      | ',' :: rest' =>
        match parseJsonElems fuel rest' with
        | some (xs, rest'') => some (v :: xs, rest'')
        | none => none
      | ']' :: rest' => some ([v], rest')
      | _ => none

/-- One or more comma-separated `"key": value` fields up to the closing brace. -/
def parseJsonFields : Nat → List Char → Option (List (String × Json) × List Char)
  | 0, _ => none
  | fuel + 1, cs =>
    match skipJsonWs cs with
    | '"' :: rest =>
      match parseStringRest (rest.length + 1) rest with
      | none => none
      | some (key, rest1) =>
        match skipJsonWs rest1 with
        | ':' :: rest2 =>
          match parseJsonValue fuel rest2 with
          | none => none
          | some (v, rest3) =>
            match skipJsonWs rest3 with
            | ',' :: rest4 =>
              match parseJsonFields fuel rest4 with
              | some (fs, rest5) => some ((String.mk key, v) :: fs, rest5)
              | none => none
            | '}' :: rest4 => some ([(String.mk key, v)], rest4)
            | _ => none
        | _ => none
    | _ => none

end

/-- Modelled from the spec: `JSON.parse(body)` succeeding exactly when the
whole input is one JSON value surrounded by whitespace. -/
def Json.parse (s : String) : Option Json :=
  match parseJsonValue (s.length + 1) s.data with
  | some (v, rest) => if (skipJsonWs rest).isEmpty then some v else none
  | none => none

/-- The lowercase hexadecimal digit for `n < 16`. -/
def hexDigitChar (n : Nat) : Char :=
  if n < 10 then Char.ofNat ('0'.toNat + n) else Char.ofNat ('a'.toNat + n - 10)

/-- JSON string-character escaping as performed by `JSON.stringify`. -/
def escapeJsonChar (c : Char) : List Char :=
  if c = '"' then ['\\', '"']
  else if c = '\\' then ['\\', '\\']
  else if c = '\x08' then ['\\', 'b']
  else if c = '\t' then ['\\', 't']
  else if c = '\n' then ['\\', 'n']
  else if c = '\x0c' then ['\\', 'f']
  else if c = '\r' then ['\\', 'r']
  else if c.toNat < 0x20 then
    ['\\', 'u', '0', '0', hexDigitChar (c.toNat / 16), hexDigitChar (c.toNat % 16)]
  else [c]

/-- A JSON string literal: quote, escaped characters, quote. -/
def quoteJsonString (s : String) : String :=
  String.mk ('"' :: s.data.foldr (fun c acc => escapeJsonChar c ++ acc) ['"'])

/-- `n` spaces of indentation. -/
def indentSpaces (n : Nat) : String := String.mk (List.replicate n ' ')

mutual

/-- Modelled from the spec: `JSON.stringify(value, null, 2)` (a JS builtin,
not repository code) — the "stable formatting" serialization the classifier
compares.  `indent` is the current indentation depth in spaces.  Number nodes
are emitted via their stored lexeme; the classifier only ever compares the
serialization of a value with the serialization of its walked copy, and the
walk never changes a number node, so the choice of number rendering cancels
out of every comparison below. -/
def stringifyJson : Json → Nat → String
  | Json.null, _ => "null"
  | Json.bool true, _ => "true"
  | Json.bool false, _ => "false"
  | Json.num lexeme, _ => lexeme
  | Json.str s, _ => quoteJsonString s
  | Json.arr [], _ => "[]"
  | Json.arr (x :: xs), indent =>
    "[\n" ++ stringifyJsonItems (x :: xs) (indent + 2) ++ "\n" ++ indentSpaces indent ++ "]"
  | Json.obj [], _ => String.mk ['{', '}']
  | Json.obj (f :: fs), indent =>
    String.mk ['{'] ++ "\n" ++ stringifyJsonFields (f :: fs) (indent + 2) ++ "\n" ++
      indentSpaces indent ++ String.mk ['}']

/-- Comma-and-newline separated array items, each on its own indented line. -/
def stringifyJsonItems : List Json → Nat → String
  | [], _ => ""
  | [x], indent => indentSpaces indent ++ stringifyJson x indent
  | x :: y :: xs, indent =>
    indentSpaces indent ++ stringifyJson x indent ++ ",\n" ++ stringifyJsonItems (y :: xs) indent

/-- Comma-and-newline separated object fields, each on its own indented line. -/
def stringifyJsonFields : List (String × Json) → Nat → String
  | [], _ => ""
  | [(k, v)], indent => indentSpaces indent ++ quoteJsonString k ++ ": " ++ stringifyJson v indent
  | (k, v) :: g :: fs, indent =>
    indentSpaces indent ++ quoteJsonString k ++ ": " ++ stringifyJson v indent ++ ",\n" ++
      stringifyJsonFields (g :: fs) indent

end

/-- Top-level pretty serialization, `JSON.stringify(v, null, 2)`. -/
def Json.stringifyPretty (v : Json) : String := stringifyJson v 0

/-- The `type` discriminator of a classified body (`'json' | 'binary' | 'text'`). -/
inductive BodyType where
  | json
  | binary
  | text
deriving Repr, DecidableEq

/-- Return record of `truncateResponseBody`. -/
structure ClassifiedBody where
  body : String
  truncated : Bool
  originalLength : Nat
  type : BodyType
deriving Repr, DecidableEq

/-- Embedding of `truncateResponseBody(body, base64Encoded, options)` from
`src/utils/truncate.ts` (lines 128-171): explicit or detected base64 goes to
the binary branch with the estimated byte size `floor(length * 3 / 4)`;
otherwise a successful JSON parse goes to the JSON branch, whose truncated
flag compares the lengths of the two serializations; otherwise the body is
plain text. -/
def truncateResponseBody (body : String) (base64Encoded : Bool) (maxStringLength : Nat) :
    ClassifiedBody :=
  if base64Encoded || isBase64Binary body then
    ⟨formatBinarySize (body.length * 3 / 4), true, body.length, BodyType.binary⟩
  else
    match Json.parse body with
    | some parsed =>
      let truncatedValue := truncateJsonValues parsed maxStringLength
      let truncatedBody := Json.stringifyPretty truncatedValue
      let originalFormatted := Json.stringifyPretty parsed
      ⟨truncatedBody, decide (truncatedBody.length < originalFormatted.length),
        body.length, BodyType.json⟩
    | none =>
      let result := truncateString body maxStringLength
      ⟨result.value, result.truncated, result.originalLength, BodyType.text⟩

/-- The network entry record passed to `truncateNetworkEntry`
(`NetworkEntryForTruncation` in the source).  Optional fields are `Option`;
JS numeric fields are integers here (their values are only ever copied). -/
structure NetworkEntryForTruncation where
  requestId : String
  method : String
  url : String
  status : Option Int
  statusText : Option String
  mimeType : Option String
  resourceType : String
  timestamp : Int
  completed : Bool
  error : Option String
deriving Repr, DecidableEq

/-- Embedding of `truncateNetworkEntry(entry, options)` from
`src/utils/truncate.ts` (lines 193-207): a shallow copy in which `url` is
truncated, `statusText` and `error` are truncated when JS-truthy (absent and
empty strings pass through as-is), and every other field is copied. -/
def truncateNetworkEntry (entry : NetworkEntryForTruncation) (maxStringLength : Nat) :
    NetworkEntryForTruncation :=
  ⟨entry.requestId,
    entry.method,
    (truncateString entry.url maxStringLength).value,
    entry.status,
    (match entry.statusText with
      | none => none
      | some s => if s.isEmpty then some s else some (truncateString s maxStringLength).value),
    entry.mimeType,
    entry.resourceType,
    entry.timestamp,
    entry.completed,
    (match entry.error with
      | none => none
      | some s => if s.isEmpty then some s else some (truncateString s maxStringLength).value)⟩

/-- Embedding of `truncateHeaders(headers, options)` from
`src/utils/truncate.ts` (lines 212-224): the header map (an ordered list of
name-value pairs, as `Object.entries` enumerates it) is rebuilt with every
value truncated and every name kept. -/
def truncateHeaders (headers : List (String × String)) (maxStringLength : Nat) :
    List (String × String) :=
  headers.map (fun p => (p.1, (truncateString p.2 maxStringLength).value))

/-- 96 spaces, for the binary-looking JSON probe. -/
def spaces96 : String := String.mk (List.replicate 96 ' ')

/-- A 100-character body that is valid JSON (the number `1e+4` surrounded by
whitespace) yet passes every check of `isBase64Binary`: stripped of
whitespace it is `1e+4`, of length 4 (divisible by 4), containing `+`, and
made only of base64-alphabet characters and `+`. -/
def binaryLookingJsonBody : String := spaces96 ++ "1e+4"

/-- The spec's short JSON body example. -/
def shortJsonBody : String := "\x7b\"short\":\"value\"\x7d"

/-- The parse of `shortJsonBody`. -/
def shortObjValue : Json := Json.obj [("short", Json.str "value")]

/-- A 104-character alphanumeric-only string whose length is divisible by 4. -/
def alphanumeric104 : String := String.mk (List.replicate 104 'a')

theorem truncateString_le_eq (s : String) (m : Nat) (h : s.length ≤ m) :
    truncateString s m = ⟨s, false, s.length⟩ := by
  unfold truncateString
  rw [if_pos h]

theorem truncateString_originalLength (s : String) (m : Nat) :
    (truncateString s m).originalLength = s.length := by
  unfold truncateString
  split <;> rfl

mutual

theorem shapeOf_truncate (v : Json) (m : Nat) :
    shapeOf (truncateJsonValues v m) = shapeOf v := by
  cases v with
  | null => rfl
  | bool b => rfl
  | num n => rfl
  | str s => rfl
  | arr xs => exact congrArg Json.arr (shapeOfList_truncate xs m)
  | obj fs => exact congrArg Json.obj (shapeOfFields_truncate fs m)

theorem shapeOfList_truncate (xs : List Json) (m : Nat) :
    shapeOfList (truncateJsonList xs m) = shapeOfList xs := by
  cases xs with
  | nil => rfl
  | cons x xs =>
    exact congrArg₂ List.cons (shapeOf_truncate x m) (shapeOfList_truncate xs m)

theorem shapeOfFields_truncate (fs : List (String × Json)) (m : Nat) :
    shapeOfFields (truncateJsonFields fs m) = shapeOfFields fs := by
  cases fs with
  | nil => rfl
  | cons f fs =>
    obtain ⟨k, v⟩ := f
    exact congrArg₂ List.cons (congrArg (Prod.mk k) (shapeOf_truncate v m))
      (shapeOfFields_truncate fs m)

end

mutual

theorem truncateJsonValues_of_allWithin (v : Json) (m : Nat)
    (h : allStringsWithin v m = true) : truncateJsonValues v m = v := by
  cases v with
  | null => rfl
  | bool b => rfl
  | num n => rfl
  | str s =>
    have hs : s.length ≤ m := by simpa [allStringsWithin] using h
    show Json.str (truncateString s m).value = Json.str s
    rw [truncateString_le_eq s m hs]
  | arr xs =>
    have h' : allStringsWithinList xs m = true := by simpa [allStringsWithin] using h
    exact congrArg Json.arr (truncateJsonList_of_allWithin xs m h')
  | obj fs =>
    have h' : allStringsWithinFields fs m = true := by simpa [allStringsWithin] using h
    exact congrArg Json.obj (truncateJsonFields_of_allWithin fs m h')

theorem truncateJsonList_of_allWithin (xs : List Json) (m : Nat)
    (h : allStringsWithinList xs m = true) : truncateJsonList xs m = xs := by
  cases xs with
  | nil => rfl
  | cons x xs =>
    have h' : allStringsWithin x m = true ∧ allStringsWithinList xs m = true := by
      simpa [allStringsWithinList, Bool.and_eq_true] using h
    exact congrArg₂ List.cons (truncateJsonValues_of_allWithin x m h'.1)
      (truncateJsonList_of_allWithin xs m h'.2)

theorem truncateJsonFields_of_allWithin (fs : List (String × Json)) (m : Nat)
    (h : allStringsWithinFields fs m = true) : truncateJsonFields fs m = fs := by
  cases fs with
  | nil => rfl
  | cons f fs =>
    obtain ⟨k, v⟩ := f
    have h' : allStringsWithin v m = true ∧ allStringsWithinFields fs m = true := by
      simpa [allStringsWithinFields, Bool.and_eq_true] using h
    exact congrArg₂ List.cons (congrArg (Prod.mk k) (truncateJsonValues_of_allWithin v m h'.1))
      (truncateJsonFields_of_allWithin fs m h'.2)

end

theorem truncateHeaders_keys (headers : List (String × String)) (m : Nat) :
    (truncateHeaders headers m).map Prod.fst = headers.map Prod.fst := by
  unfold truncateHeaders
  rw [List.map_map]
  exact List.map_congr_left (fun a _ => rfl)

/-- C1: For every string s and budget b with length(s) > b, truncateString
returns truncated=true, originalLength=length(s), and value equal to
slice(s, 0, max(0, b - length(marker))) followed by the marker
"...[+N chars]" where the integer N equals exactly length(s) - b. -/
theorem truncateString_over_budget (s : String) (b : Nat) (h : b < s.length) :
    truncateString s b =
      ⟨s.take (max 0 (b - ("...[+" ++ toString (s.length - b) ++ " chars]").length))
          ++ ("...[+" ++ toString (s.length - b) ++ " chars]"),
        true, s.length⟩ := by
  unfold truncateString
  rw [if_neg (Nat.not_le_of_lt h)]
  rfl

/-- Witness for `truncateString_over_budget` at a concrete 120-character
string and budget 100. -/
theorem truncateString_over_budget_witness :
    100 < aString120.length ∧
      truncateString aString120 100 =
        ⟨aString120.take
            (max 0 (100 - ("...[+" ++ toString (aString120.length - 100) ++ " chars]").length))
            ++ ("...[+" ++ toString (aString120.length - 100) ++ " chars]"),
          true, aString120.length⟩ :=
  ⟨by decide, truncateString_over_budget aString120 100 (by decide)⟩

/-- C2: For every string s and budget b with length(s) ≤ b, truncateString
returns the record with the input string completely unchanged,
truncated=false and originalLength=length(s). -/
theorem truncateString_within_budget (s : String) (b : Nat) (h : s.length ≤ b) :
    truncateString s b = ⟨s, false, s.length⟩ :=
  truncateString_le_eq s b h

/-- Witness for `truncateString_within_budget` at "hello world" with the
default budget 500. -/
theorem truncateString_within_budget_witness :
    ("hello world" : String).length ≤ 500 ∧
      truncateString "hello world" 500
        = ⟨"hello world", false, ("hello world" : String).length⟩ :=
  ⟨by decide, truncateString_within_budget "hello world" 500 (by decide)⟩

/-- C3: For every JSON-shaped value v and budget b, truncateJsonValues
returns a value of the same shape: `shapeOf` keeps every mapping's key list
(set and order), every sequence's length and element order, and the exact
value of every non-string scalar, while blanking string leaves — so equality
of `shapeOf` states that only string leaves may differ. -/
theorem truncateJsonValues_preserves_shape (v : Json) (b : Nat) :
    shapeOf (truncateJsonValues v b) = shapeOf v :=
  shapeOf_truncate v b

/-- C5 counterexample: at the 120-character string and budget 100 the output
keeps 86 characters and appends the marker "...[+20 chars]"; 34 characters
of the input were removed (originalLength 120 minus the 86 kept), yet the
marker encodes 20.  The integer in the marker is not the count of removed
characters. -/
theorem marker_not_removed_count :
    (truncateString aString120 100).value
        = String.mk (List.replicate 86 'a') ++ "...[+20 chars]" ∧
      remainingChars aString120 100 = 20 ∧
      removedCharCount aString120 100 = 34 ∧
      remainingChars aString120 100 ≠ removedCharCount aString120 100 := by
  refine ⟨by decide, by decide, by decide, by decide⟩

/-- C5 (amended): for every over-budget string the integer in the marker of
truncateString(s, b).value equals exactly length(s) - b — the amount by which
the string exceeds the budget — while the number of characters of s actually
removed (originalLength minus the kept prefix) is larger than that integer by
min(b, length(marker)). -/
theorem marker_encodes_excess_over_budget (s : String) (b : Nat) (h : b < s.length) :
    (truncateString s b).value = s.take (truncateCutAt s b) ++ indicatorFor (s.length - b) ∧
      removedCharCount s b
        = remainingChars s b + min b (indicatorFor (s.length - b)).length := by
  constructor
  · unfold truncateString
    rw [if_neg (Nat.not_le_of_lt h)]
    rfl
  · unfold removedCharCount truncateCutAt remainingChars
    omega

/-- Witness for `marker_encodes_excess_over_budget` at the 120-character
probe and budget 100. -/
theorem marker_encodes_excess_over_budget_witness :
    100 < aString120.length ∧
      ((truncateString aString120 100).value
          = aString120.take (truncateCutAt aString120 100)
              ++ indicatorFor (aString120.length - 100) ∧
        removedCharCount aString120 100
          = remainingChars aString120 100
              + min 100 (indicatorFor (aString120.length - 100)).length) :=
  ⟨by decide, marker_encodes_excess_over_budget aString120 100 (by decide)⟩

/-- C4 counterexample: `binaryLookingJsonBody` (96 spaces followed by the
JSON number `1e+4`) parses successfully as JSON, yet `truncateResponseBody`
with base64Encoded=false classifies it as binary, because the base64
heuristic runs before JSON parsing and accepts it.  So it is not the case
that every successfully parsing body yields type="json". -/
theorem json_body_classified_binary_counterexample :
    Json.parse binaryLookingJsonBody = some (Json.num "1e+4") ∧
      isBase64Binary binaryLookingJsonBody = true ∧
      (truncateResponseBody binaryLookingJsonBody false 500).type = BodyType.binary ∧
      (truncateResponseBody binaryLookingJsonBody false 500).type ≠ BodyType.json :=
  ⟨rfl, rfl, rfl, by decide⟩

/-- C4 (amended): for every body string on which the base64 detector reports
false and which parses successfully as JSON, and for every budget,
truncateResponseBody returns type="json" with its truncated flag equal to
the comparison length(serialize(walked)) < length(serialize(parsed)); in
particular, when no string leaf of the parsed value exceeds the budget, the
flag is false. -/
theorem jsonBranch_truncated_flag (body : String) (m : Nat) (v : Json)
    (hbin : isBase64Binary body = false) (hparse : Json.parse body = some v) :
    (truncateResponseBody body false m).type = BodyType.json ∧
      (truncateResponseBody body false m).truncated
        = decide ((Json.stringifyPretty (truncateJsonValues v m)).length
            < (Json.stringifyPretty v).length) ∧
      (allStringsWithin v m = true → (truncateResponseBody body false m).truncated = false) := by
  have hres : truncateResponseBody body false m
      = ⟨Json.stringifyPretty (truncateJsonValues v m),
          decide ((Json.stringifyPretty (truncateJsonValues v m)).length
            < (Json.stringifyPretty v).length), body.length, BodyType.json⟩ := by
    unfold truncateResponseBody
    rw [hbin]
    rw [show (false || false) = false from rfl]
    rw [if_neg (by simp)]
    rw [hparse]
  refine ⟨by rw [hres], by rw [hres], ?_⟩
  intro hall
  rw [hres]
  show decide _ = false
  rw [truncateJsonValues_of_allWithin v m hall]
  simp

/-- Witness for `jsonBranch_truncated_flag` at the spec's short JSON body
with budget 500. -/
theorem jsonBranch_truncated_flag_witness :
    isBase64Binary shortJsonBody = false ∧
      Json.parse shortJsonBody = some shortObjValue ∧
      allStringsWithin shortObjValue 500 = true ∧
      (truncateResponseBody shortJsonBody false 500).type = BodyType.json ∧
      (truncateResponseBody shortJsonBody false 500).truncated = false := by
  have h := jsonBranch_truncated_flag shortJsonBody 500 shortObjValue rfl rfl
  exact ⟨rfl, rfl, rfl, h.1, h.2.2 rfl⟩

/-- C6: for every body string and budget, truncateResponseBody with the
explicit base64Encoded flag set returns type="binary" and truncated=true
unconditionally, with body formatted from the estimated byte size
floor(length * 3 / 4); the heuristic detector is never consulted. -/
theorem base64Encoded_forces_binary (body : String) (m : Nat) :
    truncateResponseBody body true m
      = ⟨formatBinarySize (body.length * 3 / 4), true, body.length, BodyType.binary⟩ := by
  unfold truncateResponseBody
  rfl

/-- C7: truncateNetworkEntry passes exactly url, statusText and error through
string truncation and copies every other field unchanged; truncateHeaders
keeps the header name list (set and order) and truncates only values. -/
theorem entry_and_header_redaction_fields (e : NetworkEntryForTruncation)
    (headers : List (String × String)) (m : Nat) :
    (truncateNetworkEntry e m).url = (truncateString e.url m).value ∧
      (truncateNetworkEntry e m).statusText
        = Option.map (fun s => (truncateString s m).value) e.statusText ∧
      (truncateNetworkEntry e m).error
        = Option.map (fun s => (truncateString s m).value) e.error ∧
      (truncateNetworkEntry e m).requestId = e.requestId ∧
      (truncateNetworkEntry e m).method = e.method ∧
      (truncateNetworkEntry e m).status = e.status ∧
      (truncateNetworkEntry e m).mimeType = e.mimeType ∧
      (truncateNetworkEntry e m).resourceType = e.resourceType ∧
      (truncateNetworkEntry e m).timestamp = e.timestamp ∧
      (truncateNetworkEntry e m).completed = e.completed ∧
      (truncateHeaders headers m).map Prod.fst = headers.map Prod.fst ∧
      truncateHeaders headers m = headers.map (fun p => (p.1, (truncateString p.2 m).value)) := by
  refine ⟨rfl, ?_, ?_, rfl, rfl, rfl, rfl, rfl, rfl, rfl, truncateHeaders_keys headers m, rfl⟩
  · show (match e.statusText with
        | none => none
        | some s => if s.isEmpty then some s else some (truncateString s m).value)
      = Option.map (fun s => (truncateString s m).value) e.statusText
    cases e.statusText with
    | none => rfl
    | some s =>
      show (if s.isEmpty then some s else some (truncateString s m).value)
          = some ((truncateString s m).value)
      by_cases hs : s.isEmpty
      · rw [if_pos hs]
        have hse : s = "" := (String.isEmpty_iff s).mp hs
        subst hse
        rw [truncateString_le_eq "" m (Nat.zero_le m)]
      · rw [if_neg hs]
  · show (match e.error with
        | none => none
        | some s => if s.isEmpty then some s else some (truncateString s m).value)
      = Option.map (fun s => (truncateString s m).value) e.error
    cases e.error with
    | none => rfl
    | some s =>
      show (if s.isEmpty then some s else some (truncateString s m).value)
          = some ((truncateString s m).value)
      by_cases hs : s.isEmpty
      · rw [if_pos hs]
        have hse : s = "" := (String.isEmpty_iff s).mp hs
        subst hse
        rw [truncateString_le_eq "" m (Nat.zero_le m)]
      · rw [if_neg hs]

/-- C8: isBase64Binary returns false for every string shorter than 100
characters, and returns false for every string consisting only of
alphanumeric characters (hence containing none of '+', '/', '='), even when
its whitespace-stripped length is divisible by 4. -/
theorem isBase64Binary_short_or_alphanumeric (s : String)
    (h : s.length < 100 ∨ ∀ c ∈ s.data, c.isAlphanum = true) :
    isBase64Binary s = false := by
  rcases h with h | h
  · unfold isBase64Binary
    rw [if_pos h]
  · by_cases hlen : s.length < 100
    · unfold isBase64Binary
      rw [if_pos hlen]
    · have hany : (s.data.filter (fun c => !isJsRegexWs c)).any
          (fun c => c = '+' || c = '/' || c = '=') = false := by
        rw [List.any_eq_false]
        intro c hc
        have hmem : c ∈ s.data := List.mem_of_mem_filter hc
        have halpha := h c hmem
        intro hcontra
        have : (c = '+' ∨ c = '/') ∨ c = '=' := by
          simpa [Bool.or_eq_true, decide_eq_true_eq] using hcontra
        rcases this with (rfl | rfl) | rfl <;> exact absurd halpha (by decide)
      unfold isBase64Binary
      rw [if_neg hlen]
      show (if _ % 4 ≠ 0 then false
        else if !(s.data.filter (fun c => !isJsRegexWs c)).any
            (fun c => c = '+' || c = '/' || c = '=') then false
        else matchesBase64Pattern ((s.data.filter (fun c => !isJsRegexWs c)).take 1000)) = false
      rw [hany]
      by_cases h4 : (s.data.filter (fun c => !isJsRegexWs c)).length % 4 ≠ 0
      · rw [if_pos h4]
      · rw [if_neg h4]
        rfl

/-- Witness for `isBase64Binary_short_or_alphanumeric` at the 104-character
alphanumeric string (whose stripped length is divisible by 4). -/
theorem isBase64Binary_short_or_alphanumeric_witness :
    (alphanumeric104.length < 100 ∨ ∀ c ∈ alphanumeric104.data, c.isAlphanum = true) ∧
      alphanumeric104.length % 4 = 0 ∧
      isBase64Binary alphanumeric104 = false :=
  ⟨Or.inr (by decide), by decide,
    isBase64Binary_short_or_alphanumeric alphanumeric104 (Or.inr (by decide))⟩

/-- C9: formatBinarySize formats byte counts with thresholds at 1024 and
1024·1024 bytes, one decimal place for KB and MB; in particular the three
values pinned by the spec and tests. -/
theorem formatBinarySize_thresholds :
    formatBinarySize 500 = "[Binary data: 500 B]" ∧
      formatBinarySize 5000 = "[Binary data: 4.9 KB]" ∧
      formatBinarySize 5000000 = "[Binary data: 4.8 MB]" ∧
      (∀ b : Nat, b < 1024 → formatBinarySize b = "[Binary data: " ++ toString b ++ " B]") ∧
      (∀ b : Nat, 1024 ≤ b → b < 1024 * 1024 →
        formatBinarySize b = "[Binary data: " ++ toFixed1 b 1024 ++ " KB]") ∧
      (∀ b : Nat, 1024 * 1024 ≤ b →
        formatBinarySize b = "[Binary data: " ++ toFixed1 b (1024 * 1024) ++ " MB]") := by
  refine ⟨rfl, rfl, rfl, ?_, ?_, ?_⟩
  · intro b hb
    unfold formatBinarySize
    rw [if_pos hb]
  · intro b hb1 hb2
    unfold formatBinarySize
    rw [if_neg (Nat.not_lt_of_le hb1), if_pos hb2]
  · intro b hb
    unfold formatBinarySize
    rw [if_neg (by omega), if_neg (by omega)]

/-- Witness for `formatBinarySize_thresholds` exercising each threshold arm
at the spec's three byte counts. -/
theorem formatBinarySize_thresholds_witness :
    (500 : Nat) < 1024 ∧ (1024 : Nat) ≤ 5000 ∧ (5000 : Nat) < 1024 * 1024 ∧
      (1024 * 1024 : Nat) ≤ 5000000 ∧
      formatBinarySize 500 = "[Binary data: " ++ toString (500 : Nat) ++ " B]" ∧
      formatBinarySize 5000 = "[Binary data: " ++ toFixed1 5000 1024 ++ " KB]" ∧
      formatBinarySize 5000000 = "[Binary data: " ++ toFixed1 5000000 (1024 * 1024) ++ " MB]" :=
  ⟨by decide, by decide, by decide, by decide,
    formatBinarySize_thresholds.2.2.2.1 500 (by decide),
    formatBinarySize_thresholds.2.2.2.2.1 5000 (by decide) (by decide),
    formatBinarySize_thresholds.2.2.2.2.2 5000000 (by decide)⟩

/-- C10: in every branch of truncateResponseBody (binary, JSON and text) the
returned originalLength equals the length of the raw input body string — in
the JSON branch the raw body's length, not the length of the re-serialized
parsed value. -/
theorem originalLength_is_raw_body_length (body : String) (base64Encoded : Bool) (m : Nat) :
    (truncateResponseBody body base64Encoded m).originalLength = body.length := by
  unfold truncateResponseBody
  by_cases hb : (base64Encoded || isBase64Binary body) = true
  · rw [if_pos hb]
  · rw [if_neg hb]
    cases hp : Json.parse body with
    | some v => rfl
    | none => exact truncateString_originalLength body m
